import Mathlib

/-!
Verification of the NexSupply sourcing-intelligence request pipeline.

This file shallowly embeds the usage limiter (`web/lib/usage/limit.ts`),
the category resolver (`web/lib/compliance.ts` helpers in
`web/lib/product-analysis/schema.ts` source listing), the testing-cost
estimator (`web/lib/regulation/testCost.ts`), the initial-order cost
rollup (`orderCost.ts`), the knowledge-store merge step
(`web/scripts/autoCategory.ts`), and the usage-relevant prefix of the
`POST /api/analyze-product` route handler.

Modelling conventions:
* JavaScript strings are lists of characters (`Str`).
* The process-lifetime `Map<string, UsageEntry>` is an association list,
  with `storeGet`/`storeSet` mirroring `Map.get`/`Map.set`.
* The environment flag `NEXSUPPLY_DISABLE_USAGE_LIMITS === 'true'` and the
  current calendar-day number (`getCurrentDateAsNumber()`) are explicit
  parameters, since they are ambient inputs of the TypeScript functions.
* JavaScript numbers are rationals; every arithmetic step performed by the
  embedded code is exact in IEEE double precision at the inputs considered.
* Fallible lookups return `Option`.
-/

namespace NexSupply

/-- JS strings modelled as lists of characters. -/
abbrev Str := List Char

/-- Embed a Lean string literal into the character-list model. -/
def str (s : String) : Str := s.data

/-- `s.toLowerCase()`. -/
def lowerStr (s : Str) : Str := s.map Char.toLower

/-- JS `haystack.includes(needle)`: contiguous-substring containment. -/
def strIncludes (haystack needle : Str) : Bool :=
  needle.isPrefixOf haystack ||
    match haystack with
    | [] => false
    | _ :: t => strIncludes t needle

/-! ## Usage limiter (`web/lib/usage/limit.ts`) -/

/-- `UsageEntry` from `limit.ts`: request count plus a calendar-day number
such as `20231225`. -/
structure UsageEntry where
  count : Nat
  date : Nat
deriving DecidableEq

/-- The module-level `Map<string, UsageEntry>` modelled as an association
list. -/
abbrev UsageStore := List (String × UsageEntry)

/-- `usage.get(identifier)`. -/
def storeGet : UsageStore → String → Option UsageEntry
  | [], _ => none
  | (k, v) :: rest, id => if k = id then some v else storeGet rest id

/-- `usage.set(identifier, entry)`: replace the existing binding or add a
new one. -/
def storeSet : UsageStore → String → UsageEntry → UsageStore
  | [], id, e => [(id, e)]
  | (k, v) :: rest, id, e =>
      if k = id then (id, e) :: rest else (k, v) :: storeSet rest id e

/-- The `{count, limit}` record returned by the limiter functions. -/
structure UsageResult where
  count : Nat
  limit : Nat
deriving DecidableEq

/-- `getLimit` from `limit.ts`: 5 for authenticated callers, 1 for
anonymous callers. -/
def getLimit (isAuthenticated : Bool) : Nat :=
  if isAuthenticated then 5 else 1

/-- `getUsage` from `limit.ts` (lines 28-38).  It only reads the map: the
returned store is the input store, mirroring the absence of any
`usage.set` call in the source.  `today` is `getCurrentDateAsNumber()`. -/
def getUsage (today : Nat) (identifier : String) (isAuthenticated : Bool)
    (store : UsageStore) : UsageResult × UsageStore :=
  let limit := getLimit isAuthenticated
  match storeGet store identifier with
  | none => (⟨0, limit⟩, store)
  | some entry =>
      if entry.date ≠ today then (⟨0, limit⟩, store)
      else (⟨entry.count, limit⟩, store)

/-- `incrementUsage` from `limit.ts` (lines 40-63).  `disableLimits` is
`process.env.NEXSUPPLY_DISABLE_USAGE_LIMITS === 'true'`; `today` is
`getCurrentDateAsNumber()`. -/
def incrementUsage (disableLimits : Bool) (today : Nat) (identifier : String)
    (isAuthenticated : Bool) (store : UsageStore) : UsageResult × UsageStore :=
  let limit := getLimit isAuthenticated
  if disableLimits then
    (⟨0, limit⟩, store)
  else
    match storeGet store identifier with
    | none =>
        (⟨1, limit⟩, storeSet store identifier ⟨1, today⟩)
    | some entry =>
        if entry.date ≠ today then
          (⟨1, limit⟩, storeSet store identifier ⟨1, today⟩)
        else
          (⟨entry.count + 1, limit⟩,
            storeSet store identifier ⟨entry.count + 1, entry.date⟩)

/-- The store and result after `n` successive `incrementUsage` calls for
one identifier (flag disabled); the first component is the result of the
`n`-th call (a placeholder `count = 0` record when `n = 0`). -/
def incrementCalls (today : Nat) (id : String) (auth : Bool) :
    Nat → UsageStore → UsageResult × UsageStore
  | 0, s => (⟨0, getLimit auth⟩, s)
  | Nat.succ n, s =>
      incrementUsage false today id auth (incrementCalls today id auth n s).2

/-! ## Usage-relevant prefix of `POST /api/analyze-product`
(`web/app/api/analyze-product/route.ts`) -/

/-- The responses of the route handler that are decided before any
analysis work happens, plus a single marker for the analysis path (which
never touches the usage store). -/
inductive PostResponse where
  /-- 429 `quota_exceeded` with its `reason` field. -/
  | quotaExceeded (reason : String)
  /-- 400 `Input is required.`. -/
  | badRequest
  /-- 200: the handler proceeds to `analyzeProduct` and enrichment. -/
  | okAnalysis
deriving DecidableEq

/-- The route handler's effect on the usage store (`route.ts` lines
13-74): `incrementUsage` runs first, then the quota check, then input
validation; the analysis path never reads or writes the limiter store. -/
def postAnalyzeProduct (disableLimits : Bool) (today : Nat)
    (identifier : String) (isAuthenticated : Bool) (input : String)
    (store : UsageStore) : PostResponse × UsageStore :=
  let rs := incrementUsage disableLimits today identifier isAuthenticated store
  if rs.1.count > rs.1.limit then
    (.quotaExceeded
      (if isAuthenticated then "user_daily_limit" else "anonymous_daily_limit"),
      rs.2)
  else if input = "" then
    (.badRequest, rs.2)
  else
    (.okAnalysis, rs.2)

/-! ## Category resolver (`web/lib/compliance.ts`) -/

/-- `CategoryComplianceRule` from `web/lib/types/compliance.ts`. -/
structure CategoryComplianceRule where
  id : Str
  label : Str
  exampleProducts : List Str
  targetMarkets : List Str
  typicalHtsCodes : List Str
  requiredRegulations : List Str
  testingRequirements : List Str
  highRiskFlags : List Str
  referenceLinks : List Str
deriving DecidableEq

/-- `code.replace(/[^0-9.]/g, '')`: keep only digits and dots. -/
def normalizeHts (s : Str) : Str :=
  s.filter (fun c => c.isDigit || c = '.')

/-- The per-code test inside `getComplianceByHtsCode`:
`normalizedHtsCode.startsWith(normalizedCategoryCode) ||
normalizedCategoryCode.startsWith(normalizedHtsCode)`. -/
def htsCodeMatches (query code : Str) : Bool :=
  (normalizeHts code).isPrefixOf (normalizeHts query) ||
    (normalizeHts query).isPrefixOf (normalizeHts code)

/-- The market filter shared by all three lookup helpers: with no market
requested, or an empty `targetMarkets` list, the candidate is accepted;
otherwise some target market must case-insensitively substring-overlap
the requested market in either direction. -/
def marketAccepts (market : Option Str) (targetMarkets : List Str) : Bool :=
  match market with
  | none => true
  | some m =>
      if targetMarkets.isEmpty then true
      else
        targetMarkets.any (fun t =>
          strIncludes (lowerStr t) (lowerStr m) ||
            strIncludes (lowerStr m) (lowerStr t))

/-- `getComplianceByHtsCode` (compliance.ts lines 123-154): scan the
categories in collection order; a category matches when some entry of
`typicalHtsCodes` passes `htsCodeMatches`; a matching category failing
the market filter is skipped (`continue`). -/
def getComplianceByHtsCode (cats : List CategoryComplianceRule)
    (htsCode : Str) (market : Option Str) : Option CategoryComplianceRule :=
  match cats with
  | [] => none
  | c :: rest =>
      if c.typicalHtsCodes.any (fun code => htsCodeMatches htsCode code) then
        if marketAccepts market c.targetMarkets then some c
        else getComplianceByHtsCode rest htsCode market
      else getComplianceByHtsCode rest htsCode market

/-- JS `productName.toLowerCase().split(/\s+/)`: split on maximal
whitespace runs, keeping the empty pieces that JS produces at the ends.
`cur` is the current token reversed, `prevWs` records whether the
previous character was whitespace, `acc` collects finished tokens in
reverse. -/
def splitWsGo : List Char → List Char → Bool → List Str → List Str
  | [], cur, _, acc => (cur.reverse :: acc).reverse
  | c :: cs, cur, prevWs, acc =>
      if c.isWhitespace then
        if prevWs then splitWsGo cs [] true acc
        else splitWsGo cs [] true (cur.reverse :: acc)
      else splitWsGo cs (c :: cur) false acc

/-- `s.split(/\s+/)`. -/
def splitWs (s : Str) : List Str := splitWsGo s [] false []

/-- The haystack built inside `getComplianceByProductName`:
the lowercased label, a space, and the lowercased space-joined example
products. -/
def nameHaystack (c : CategoryComplianceRule) : Str :=
  lowerStr c.label ++ [' '] ++ lowerStr (List.intercalate [' '] c.exampleProducts)

/-- The per-category test inside `getComplianceByProductName`:
`searchTerms.some(term => allText.includes(term) && term.length > 2)`. -/
def nameMatches (productName : Str) (c : CategoryComplianceRule) : Bool :=
  (splitWs (lowerStr productName)).any (fun term =>
    strIncludes (nameHaystack c) term && decide (term.length > 2))

/-- `getComplianceByProductName` (compliance.ts lines 165-199): first
category, in collection order, whose label-plus-examples haystack
contains some query token longer than two characters; matching
categories failing the market filter are skipped. -/
def getComplianceByProductName (cats : List CategoryComplianceRule)
    (productName : Str) (market : Option Str) : Option CategoryComplianceRule :=
  match cats with
  | [] => none
  | c :: rest =>
      if nameMatches productName c then
        if marketAccepts market c.targetMarkets then some c
        else getComplianceByProductName rest productName market
      else getComplianceByProductName rest productName market

/-- The resolver steps of the route handler (`route.ts` lines 82-88):
HTS lookup first, product-name lookup only when it found nothing; the
route passes no market. -/
def resolveCategory (cats : List CategoryComplianceRule)
    (productName htsCode : Str) : Option CategoryComplianceRule :=
  match getComplianceByHtsCode cats htsCode none with
  | some r => some r
  | none => getComplianceByProductName cats productName none

/-- A sample Knowledge Store record, used to instantiate theorems at
concrete inputs. -/
def babyTeetherRule : CategoryComplianceRule :=
  { id := str "baby_teether"
    label := str "Baby Teether"
    exampleProducts := [str "silicone teether ring", str "baby teething mitt"]
    targetMarkets := [str "United States"]
    typicalHtsCodes := [str "9503.00.00", str "3924.90.56"]
    requiredRegulations := [str "CPSIA lead and phthalate limits"]
    testingRequirements := []
    highRiskFlags := []
    referenceLinks := [] }

/-! ## Testing-cost estimator (`web/lib/regulation/testCost.ts`) -/

/-- A `{test, low, high}` testing-cost line item. -/
structure TestingCost where
  test : Str
  low : Nat
  high : Nat
deriving DecidableEq

/-- `testingCostTable`: canonical test name to cost bounds. -/
def testingCostTable (name : Str) : Option TestingCost :=
  if name = str "CPSIA Lead Content" then
    some ⟨str "CPSIA Lead Content", 150, 250⟩
  else if name = str "CPSIA Phthalates" then
    some ⟨str "CPSIA Phthalates", 300, 450⟩
  else if name = str "CPSIA Tracking Label" then
    some ⟨str "CPSIA Tracking Label Review", 100, 200⟩
  else if name = str "ASTM F963 Mechanical" then
    some ⟨str "ASTM F963 Mechanical Hazards", 180, 320⟩
  else if name = str "ASTM F963 Flammability" then
    some ⟨str "ASTM F963 Flammability", 120, 200⟩
  else if name = str "ASTM F963 Heavy Metals" then
    some ⟨str "ASTM F963 Heavy Metals", 250, 400⟩
  else if name = str "FDA 21 CFR Food Grade" then
    some ⟨str "FDA 21 CFR Food-Grade Material Testing", 400, 700⟩
  else none

/-- `Object.keys(regulationToTestMap)` in insertion order. -/
def regulationKeys : List Str :=
  [str "cpsia", str "astm-f963", str "fda-21-cfr"]

/-- `regulationToTestMap`: regulation-key substring to test names. -/
def regulationToTestMap (key : Str) : List Str :=
  if key = str "cpsia" then
    [str "CPSIA Lead Content", str "CPSIA Phthalates", str "CPSIA Tracking Label"]
  else if key = str "astm-f963" then
    [str "ASTM F963 Mechanical", str "ASTM F963 Flammability",
      str "ASTM F963 Heavy Metals"]
  else if key = str "fda-21-cfr" then
    [str "FDA 21 CFR Food Grade"]
  else []

/-- All test names reachable through `regulationToTestMap`. -/
def allKnownTests : List Str :=
  regulationToTestMap (str "cpsia") ++ regulationToTestMap (str "astm-f963") ++
    regulationToTestMap (str "fda-21-cfr")

/-- `Set.add`: JS `Set` keeps insertion order and ignores duplicates. -/
def insertUnique (l : List Str) (x : Str) : List Str :=
  if x ∈ l then l else l ++ [x]

/-- Add each element of `xs` to the insertion-ordered set `l`. -/
def insertManyUnique (l : List Str) (xs : List Str) : List Str :=
  xs.foldl insertUnique l

/-- The inner loop of `estimateTestingCost`: for one regulation string,
add the tests of every key contained (case-insensitively) in it. -/
def addTestsForReg (acc : List Str) (reg : Str) : List Str :=
  regulationKeys.foldl
    (fun acc2 key =>
      if strIncludes (lowerStr reg) key then
        insertManyUnique acc2 (regulationToTestMap key)
      else acc2)
    acc

/-- The `requiredTests` set after the double loop of
`estimateTestingCost`, as a duplicate-free list in insertion order. -/
def collectTests (regs : List Str) : List Str :=
  regs.foldl addTestsForReg []

/-- `estimateTestingCost` (testCost.ts lines 54-84): collect the test
names implied by the rule's regulations, then look each up in the cost
table, skipping unknown names. -/
def estimateTestingCost (complianceRule : CategoryComplianceRule) :
    List TestingCost :=
  (collectTests complianceRule.requiredRegulations).filterMap testingCostTable

/-! ## Initial-order cost rollup (`orderCost.ts`, `src/unnamed/part_005`) -/

/-- Decimal digits to a natural number. -/
def digitsToNat (ds : List Char) : Nat :=
  ds.foldl (fun n c => 10 * n + (c.toNat - '0'.toNat)) 0

/-- `parseFloat` on the shapes produced by currency stripping: optional
leading minus sign, integer digits, optionally a dot and fraction
digits; trailing garbage is ignored, and a string with no leading digits
at all gives `NaN`, modelled as `none`. -/
def parseFloatQ (s : Str) : Option ℚ :=
  let (neg, s1) :=
    match s with
    | '-' :: rest => (true, rest)
    | _ => (false, s)
  let intDs := s1.takeWhile Char.isDigit
  let s2 := s1.dropWhile Char.isDigit
  let fracDs :=
    match s2 with
    | '.' :: rest => rest.takeWhile Char.isDigit
    | _ => []
  if intDs.isEmpty && fracDs.isEmpty then none
  else
    let q : ℚ :=
      (digitsToNat intDs : ℚ) + (digitsToNat fracDs : ℚ) / (10 ^ fracDs.length)
    some (if neg then -q else q)

/-- `parseCurrency` (part_005 lines 4-6):
`parseFloat(value.replace(/[^0-9.-]+/g, ''))`; the `NaN` outcome is
modelled as `none`. -/
def parseCurrency (value : Str) : Option ℚ :=
  parseFloatQ (value.filter (fun c => c.isDigit || c = '.' || c = '-'))

/-- `InitialOrderCost` from part_005. -/
structure InitialOrderCost where
  testingCostTotal : ℚ
  unitCost : ℚ
  moq : ℚ
  minimumOrderCost : ℚ
  totalInitialCost : ℚ
deriving DecidableEq

/-- The fields of `ProductAnalysis` that `estimateInitialOrderCost`
reads: the formatted landed-cost string and the optional testing-cost
list. -/
structure AnalysisForCost where
  landed_cost : Str
  testing_cost_estimate : Option (List TestingCost)
deriving DecidableEq

/-- `estimateInitialOrderCost` (part_005 lines 24-54): sum the high
bounds (0 when the list is absent), parse the unit cost, multiply by the
fixed MOQ of 500, and add the testing total.  A `NaN` unit cost poisons
every derived number, modelled as `none`. -/
def estimateInitialOrderCost (analysis : AnalysisForCost) :
    Option InitialOrderCost :=
  let testingCostTotal : ℚ :=
    ((analysis.testing_cost_estimate.getD []).map
      (fun item => (item.high : ℚ))).sum
  match parseCurrency analysis.landed_cost with
  | none => none
  | some unitCost =>
      some
        { testingCostTotal := testingCostTotal
          unitCost := unitCost
          moq := 500
          minimumOrderCost := unitCost * 500
          totalInitialCost := unitCost * 500 + testingCostTotal }

/-! ## Knowledge-store merge (`web/scripts/autoCategory.ts`) -/

/-- `CategoryFactoryVettingHints` from `web/lib/types/factoryVetting.ts`. -/
structure CategoryFactoryVettingHints where
  id : Str
  label : Str
  typicalSupplierTypes : List Str
  mustHaveCertificates : List Str
  niceToHaveCertificates : List Str
  sampleQuestionsToFactory : List Str
  commonRedFlags : List Str
  recommendedAlibabaFilters : List Str
deriving DecidableEq

/-- The merge step on one parsed `categories` array
(`mergeIntoFiles`, autoCategory.ts lines 349-356 and 370-377):
`findIndex` the first record with the incoming identifier and replace it
in place, else push the record at the end. -/
def mergeCategory {α : Type} (getId : α → Str) :
    List α → α → List α
  | [], r => [r]
  | c :: cs, r =>
      if getId c = getId r then r :: cs else c :: mergeCategory getId cs r

/-- The parsed content of the two Knowledge Store documents. -/
structure KnowledgeStore where
  complianceCategories : List CategoryComplianceRule
  factoryCategories : List CategoryFactoryVettingHints
deriving DecidableEq

/-- `mergeIntoFiles` (autoCategory.ts lines 336-392) at the level of
parsed JSON content: merge the compliance record into the compliance
document and the factory record into the factory document.  The
read/stringify round trip with 2-space indent preserves parsed content,
so it is elided. -/
def mergeIntoFiles (ks : KnowledgeStore)
    (complianceJson : CategoryComplianceRule)
    (factoryJson : CategoryFactoryVettingHints) : KnowledgeStore :=
  { complianceCategories :=
      mergeCategory CategoryComplianceRule.id ks.complianceCategories complianceJson
    factoryCategories :=
      mergeCategory CategoryFactoryVettingHints.id ks.factoryCategories factoryJson }

/-! ## Lemmas: usage limiter -/

/-- `Map.set` followed by `Map.get` for the same key yields the stored
entry. -/
theorem storeGet_storeSet_self (s : UsageStore) (id : String) (e : UsageEntry) :
    storeGet (storeSet s id e) id = some e := by
  induction s with
  | nil => simp [storeSet, storeGet]
  | cons kv rest ih =>
      obtain ⟨k, v⟩ := kv
      by_cases hk : k = id
      · simp [storeSet, storeGet, hk]
      · simp [storeSet, storeGet, hk, ih]

/-- The limit reported by `incrementUsage` is always `getLimit`. -/
theorem incrementUsage_limit (d : Bool) (today : Nat) (id : String)
    (auth : Bool) (store : UsageStore) :
    (incrementUsage d today id auth store).1.limit = getLimit auth := by
  unfold incrementUsage
  cases d with
  | true => rfl
  | false =>
      cases storeGet store id with
      | none => rfl
      | some e =>
          by_cases hd : e.date = today <;> simp [hd]

/-- With the bypass flag off, the counter invariant: starting from a
store with no same-day entry for the identifier, after `n + 1` calls the
returned count is `n + 1` and the stored entry is `{count := n + 1,
date := today}`. -/
theorem usage_calls_invariant (today : Nat) (id : String) (auth : Bool)
    (store : UsageStore)
    (hfresh : ∀ e, storeGet store id = some e → e.date ≠ today) :
    ∀ n : Nat,
      (incrementCalls today id auth (n + 1) store).1 = ⟨n + 1, getLimit auth⟩ ∧
      storeGet (incrementCalls today id auth (n + 1) store).2 id =
        some ⟨n + 1, today⟩ := by
  intro n
  induction n with
  | zero =>
      show (incrementUsage false today id auth store).1 = _ ∧
        storeGet (incrementUsage false today id auth store).2 id = _
      unfold incrementUsage
      cases h : storeGet store id with
      | none => simp [storeGet_storeSet_self]
      | some e =>
          have hd : e.date ≠ today := hfresh e h
          simp [hd, storeGet_storeSet_self]
  | succ n ih =>
      obtain ⟨ih1, ih2⟩ := ih
      show (incrementUsage false today id auth
          (incrementCalls today id auth (n + 1) store).2).1 = _ ∧
        storeGet (incrementUsage false today id auth
          (incrementCalls today id auth (n + 1) store).2).2 id = _
      unfold incrementUsage
      simp [ih2, storeGet_storeSet_self]

/-- Every `incrementUsage` call with the bypass flag off changes the
store: it creates the entry, refreshes a stale-day entry, or strictly
increases the current count. -/
theorem incrementUsage_changes_store (today : Nat) (id : String)
    (auth : Bool) (store : UsageStore) :
    (incrementUsage false today id auth store).2 ≠ store := by
  intro heq
  have hget : storeGet (incrementUsage false today id auth store).2 id =
      storeGet store id := by rw [heq]
  revert hget
  unfold incrementUsage
  cases h : storeGet store id with
  | none => simp [storeGet_storeSet_self]
  | some e =>
      by_cases hd : e.date = today
      · simp only [hd, ne_eq, not_true_eq_false, if_false, ite_false,
          if_neg (by simp : ¬ (today ≠ today))]
        simp [storeGet_storeSet_self, h]
        intro habs
        exact absurd (congrArg UsageEntry.count habs) (by simp)
      · simp [hd, storeGet_storeSet_self, h]
        intro habs
        exact hd (by rw [← habs])

/-! ## Claim theorems: usage limiter -/

/-- C1: with the bypass flag off, for every identifier and both
authentication states, the Nth `incrementUsage` call within one calendar
day (starting from a store with no entry for that identifier dated
today) returns `count = N` with `limit = 1` for anonymous and `5` for
authenticated callers; the count keeps incrementing past the limit and
never resets while the stored day equals the current day. -/
theorem usage_nth_call_counts (today : Nat) (id : String) (auth : Bool)
    (store : UsageStore)
    (hfresh : ∀ e, storeGet store id = some e → e.date ≠ today)
    (N : Nat) (hN : 1 ≤ N) :
    (incrementCalls today id auth N store).1 =
      ⟨N, if auth then 5 else 1⟩ := by
  obtain ⟨n, rfl⟩ : ∃ n, N = n + 1 :=
    ⟨N - 1, (Nat.succ_pred_eq_of_pos hN).symm⟩
  exact (usage_calls_invariant today id auth store hfresh n).1

/-- Witness for C1: three anonymous calls on an empty store return count
3 with limit 1. -/
theorem usage_nth_call_counts_witness :
    (incrementCalls 20240101 "a" false 3 []).1 = ⟨3, 1⟩ := by
  have h := usage_nth_call_counts 20240101 "a" false []
    (fun e he => Option.noConfusion he) 3 (by decide)
  simpa using h

/-- C5: with `NEXSUPPLY_DISABLE_USAGE_LIMITS` set to `'true'`, every
`incrementUsage` call returns `count = 0` and leaves the store exactly
as it was: no entry created, none mutated. -/
theorem bypass_flag_no_mutation (today : Nat) (id : String) (auth : Bool)
    (store : UsageStore) :
    incrementUsage true today id auth store = (⟨0, getLimit auth⟩, store) :=
  rfl

/-- C9 counterexample: `getUsage` reports a nonzero current count for an
identifier while returning the store untouched, so a count-reporting
operation of the limiter module that does not mutate the store exists. -/
theorem getUsage_peek_cex :
    (getUsage 20240101 "a" false [("a", ⟨3, 20240101⟩)]).1.count = 3 ∧
    (getUsage 20240101 "a" false [("a", ⟨3, 20240101⟩)]).2 =
      [("a", ⟨3, 20240101⟩)] := by
  exact ⟨rfl, rfl⟩

/-- C9 amended: the limiter module does offer a read-only peek:
`getUsage` reports the identifier's current same-day count (0 when no
same-day entry exists) and the fixed limit without mutating the usage
store; only `incrementUsage` mutates. -/
theorem getUsage_readonly_peek (today : Nat) (id : String) (auth : Bool)
    (store : UsageStore) :
    (getUsage today id auth store).2 = store ∧
    (getUsage today id auth store).1.limit = getLimit auth ∧
    ((getUsage today id auth store).1.count = 0 ∨
      ∃ e, storeGet store id = some e ∧ e.date = today ∧
        (getUsage today id auth store).1.count = e.count) := by
  unfold getUsage
  cases h : storeGet store id with
  | none => simp
  | some e =>
      by_cases hd : e.date = today
      · refine ⟨by simp [hd], by simp [hd], Or.inr ⟨e, rfl, hd, by simp [hd]⟩⟩
      · simp [hd]

/-- C2 counterexample: a request rejected with 400 for empty input does
have a side effect: starting from an empty usage store, the rejected
request leaves behind a freshly created usage entry, because
`incrementUsage` runs before input validation in the handler. -/
theorem reject400_mutates_store_cex :
    (postAnalyzeProduct false 20240101 "a" false "" []).1 =
      PostResponse.badRequest ∧
    (postAnalyzeProduct false 20240101 "a" false "" []).2 ≠ [] := by
  decide

/-- C2 amended: whenever an under-quota request is rejected with 400 for
a missing/empty input field, the usage-limiter store has nevertheless
been mutated exactly as by the `incrementUsage` call that precedes input
validation, and that mutation is always a strict change of the store. -/
theorem reject400_consumes_quota (today : Nat) (id : String) (auth : Bool)
    (store : UsageStore)
    (hle : (incrementUsage false today id auth store).1.count ≤ getLimit auth) :
    (postAnalyzeProduct false today id auth "" store).1 =
      PostResponse.badRequest ∧
    (postAnalyzeProduct false today id auth "" store).2 =
      (incrementUsage false today id auth store).2 ∧
    (incrementUsage false today id auth store).2 ≠ store := by
  have hlim := incrementUsage_limit false today id auth store
  have hng : ¬ ((incrementUsage false today id auth store).1.count >
      (incrementUsage false today id auth store).1.limit) := by
    rw [hlim]
    exact Nat.not_lt.mpr hle
  refine ⟨?_, ?_, incrementUsage_changes_store today id auth store⟩
  · unfold postAnalyzeProduct
    simp [hng]
  · unfold postAnalyzeProduct
    simp [hng]

/-- Witness for C2's amended theorem: a first anonymous request with
empty input on an empty store is rejected with 400 yet creates a usage
entry. -/
theorem reject400_consumes_quota_witness :
    (postAnalyzeProduct false 20240101 "a" false "" []).2 =
      (incrementUsage false 20240101 "a" false []).2 ∧
    (incrementUsage false 20240101 "a" false []).2 ≠ [] := by
  have h := reject400_consumes_quota 20240101 "a" false [] (by decide)
  exact ⟨h.2.1, h.2.2⟩

/-! ## Lemmas: category resolver -/

/-- `strIncludes` decides contiguous-substring containment. -/
theorem strIncludes_iff (haystack needle : Str) :
    strIncludes haystack needle = true ↔ needle <:+: haystack := by
  induction haystack with
  | nil =>
      simp [strIncludes, List.isPrefixOf_iff_prefix]
  | cons c t ih =>
      rw [strIncludes, Bool.or_eq_true, List.isPrefixOf_iff_prefix, ih,
        List.infix_cons_iff]

/-- A nonempty list's head survives prefix extension. -/
theorem head_eq_of_starts {l₁ l₂ : Str} {a : Char} (h : l₁ <+: l₂)
    (ha : l₁.head? = some a) : l₂.head? = some a := by
  obtain ⟨t, rfl⟩ := h
  cases l₁ with
  | nil => simp at ha
  | cons x xs => simpa using ha

/-! ## Claim theorems: category resolver -/

/-- C3: `getComplianceByHtsCode` matches a query code against a stored
code exactly when one normalized (digits-and-dots-only) string is a
prefix of the other; normalized codes starting with different characters
never match; and when no stored rule matches, the lookup returns `none`
(the function is total, never an error). -/
theorem hts_match_bidirectional :
    (∀ query code : Str,
      htsCodeMatches query code = true ↔
        (normalizeHts query <+: normalizeHts code ∨
          normalizeHts code <+: normalizeHts query)) ∧
    (∀ (query code : Str) (a b : Char),
      (normalizeHts query).head? = some a →
      (normalizeHts code).head? = some b →
      a ≠ b →
      htsCodeMatches query code = false) ∧
    (∀ (cats : List CategoryComplianceRule) (query : Str) (market : Option Str),
      (∀ r ∈ cats,
        r.typicalHtsCodes.any (fun code => htsCodeMatches query code) = false) →
      getComplianceByHtsCode cats query market = none) := by
  have hchar : ∀ query code : Str,
      htsCodeMatches query code = true ↔
        (normalizeHts query <+: normalizeHts code ∨
          normalizeHts code <+: normalizeHts query) := by
    intro query code
    rw [htsCodeMatches, Bool.or_eq_true, List.isPrefixOf_iff_prefix,
      List.isPrefixOf_iff_prefix, or_comm]
  refine ⟨hchar, ?_, ?_⟩
  · intro query code a b hq hc hab
    rw [← Bool.not_eq_true]
    intro hm
    rcases (hchar query code).1 hm with h | h
    · exact hab (Option.some.inj ((head_eq_of_starts h hq).symm.trans hc))
    · exact hab (Option.some.inj (hq.symm.trans (head_eq_of_starts h hc)))
  · intro cats query market hnone
    induction cats with
    | nil => rfl
    | cons c rest ih =>
        rw [getComplianceByHtsCode, if_neg]
        · exact ih (fun r hr => hnone r (List.mem_cons_of_mem c hr))
        · have hc := hnone c (List.mem_cons_self c rest)
          simp [hc]

/-- Witness for C3: a 4-digit heading matches a stored 10-character
code, codes with different leading digits never match, and a
non-matching store yields `none`. -/
theorem hts_match_bidirectional_witness :
    htsCodeMatches (str "9503") (str "9503.00.00") = true ∧
    htsCodeMatches (str "95") (str "84") = false ∧
    getComplianceByHtsCode [babyTeetherRule] (str "84") none = none := by
  obtain ⟨h1, h2, h3⟩ := hts_match_bidirectional
  refine ⟨?_, ?_, ?_⟩
  · exact (h1 (str "9503") (str "9503.00.00")).2 (Or.inl (by decide))
  · exact h2 (str "95") (str "84") '9' '8' (by decide) (by decide) (by decide)
  · exact h3 [babyTeetherRule] (str "84") none (by decide)

/-- C10: a query with no digit and no dot normalizes to the empty
string, which is a prefix of every stored code, so
`getComplianceByHtsCode` returns the first category in collection order
with a nonempty `typicalHtsCodes` list that passes the optional market
filter. -/
theorem empty_normalized_query_matches_first
    (cats : List CategoryComplianceRule) (query : Str) (market : Option Str)
    (hq : (query.all fun ch => !(ch.isDigit || ch = '.')) = true) :
    getComplianceByHtsCode cats query market =
      cats.find? (fun c =>
        !c.typicalHtsCodes.isEmpty && marketAccepts market c.targetMarkets) := by
  have hnorm : normalizeHts query = [] := by
    rw [normalizeHts, List.filter_eq_nil_iff]
    intro a ha
    have := List.all_eq_true.1 hq a ha
    simpa using this
  have hmatch : ∀ code : Str, htsCodeMatches query code = true := by
    intro code
    rw [htsCodeMatches, hnorm]
    simp
  induction cats with
  | nil => rfl
  | cons c rest ih =>
      rw [getComplianceByHtsCode]
      cases hemp : c.typicalHtsCodes with
      | nil =>
          rw [List.find?_cons_of_neg _ (by simp [hemp])]
          simpa [hemp] using ih
      | cons x xs =>
          rw [if_pos (by simp [hemp, hmatch])]
          by_cases hmk : marketAccepts market c.targetMarkets = true
          · rw [if_pos hmk, List.find?_cons_of_pos _ (by simp [hemp, hmk])]
          · rw [if_neg hmk, List.find?_cons_of_neg _ (by simp [hemp, hmk])]
            exact ih

/-- Witness for C10: the query `unknown` contains no digit or dot and
resolves to the very first stored category. -/
theorem empty_normalized_query_matches_first_witness :
    getComplianceByHtsCode [babyTeetherRule] (str "unknown") none =
      some babyTeetherRule := by
  have h := empty_normalized_query_matches_first [babyTeetherRule]
    (str "unknown") none (by decide)
  rw [h]
  decide

/-- C4: product-name resolution (the fallback the route uses only when
the HTS lookup found nothing) returns the first rule, in collection
order, matched by the tokenized query; a rule is matched exactly when
some lowercase whitespace-delimited token of length above two occurs as
a substring of the rule's lowercased label-plus-example-products
haystack; and a query whose tokens all have length at most two never
matches any rule. -/
theorem product_name_resolution :
    (∀ (cats : List CategoryComplianceRule) (q : Str),
      getComplianceByProductName cats q none =
        cats.find? (fun c => nameMatches q c)) ∧
    (∀ (q : Str) (c : CategoryComplianceRule),
      nameMatches q c = true ↔
        ∃ t ∈ splitWs (lowerStr q), 2 < t.length ∧ t <:+: nameHaystack c) ∧
    (∀ (cats : List CategoryComplianceRule) (q : Str) (market : Option Str),
      (∀ t ∈ splitWs (lowerStr q), t.length ≤ 2) →
      getComplianceByProductName cats q market = none) ∧
    (∀ (cats : List CategoryComplianceRule) (name hts : Str)
      (r : CategoryComplianceRule),
      getComplianceByHtsCode cats hts none = some r →
      resolveCategory cats name hts = some r) := by
  refine ⟨?_, ?_, ?_, ?_⟩
  · intro cats q
    induction cats with
    | nil => rfl
    | cons c rest ih =>
        rw [getComplianceByProductName]
        by_cases hm : nameMatches q c = true
        · rw [if_pos hm, if_pos (by rfl), List.find?_cons_of_pos _ hm]
        · rw [if_neg hm, List.find?_cons_of_neg _ hm]
          exact ih
  · intro q c
    rw [nameMatches, List.any_eq_true]
    constructor
    · rintro ⟨t, ht, hp⟩
      rw [Bool.and_eq_true, strIncludes_iff, decide_eq_true_iff] at hp
      exact ⟨t, ht, hp.2, hp.1⟩
    · rintro ⟨t, ht, hlen, hinf⟩
      refine ⟨t, ht, ?_⟩
      rw [Bool.and_eq_true, strIncludes_iff, decide_eq_true_iff]
      exact ⟨hinf, hlen⟩
  · intro cats q market hshort
    have hall : ∀ c : CategoryComplianceRule, nameMatches q c = false := by
      intro c
      rw [nameMatches, List.any_eq_false]
      intro t ht
      simp [Nat.not_lt.2 (hshort t ht)]
    induction cats with
    | nil => rfl
    | cons c rest ih =>
        rw [getComplianceByProductName, if_neg (by simp [hall c])]
        exact ih
  · intro cats name hts r h
    rw [resolveCategory, h]

/-- Witness for C4: the token `teether` (length 7) matches the sample
rule, a query of only short tokens matches nothing, and a successful HTS
lookup preempts the name fallback. -/
theorem product_name_resolution_witness :
    nameMatches (str "Silicone BABY Teether ring") babyTeetherRule = true ∧
    getComplianceByProductName [babyTeetherRule] (str "a an of") none = none ∧
    resolveCategory [babyTeetherRule] (str "anything") (str "9503") =
      some babyTeetherRule := by
  obtain ⟨ha, hb, hc, hd⟩ := product_name_resolution
  refine ⟨?_, ?_, ?_⟩
  · exact (hb (str "Silicone BABY Teether ring") babyTeetherRule).2
      ⟨str "teether", by decide, by decide, by decide⟩
  · exact hc [babyTeetherRule] (str "a an of") none (by decide)
  · exact hd [babyTeetherRule] (str "anything") (str "9503") babyTeetherRule
      (by decide)

/-! ## Lemmas: testing-cost estimator -/

/-- Membership after a `Set.add`. -/
theorem mem_insertUnique {l : List Str} {x y : Str} :
    y ∈ insertUnique l x ↔ y ∈ l ∨ y = x := by
  rw [insertUnique]
  by_cases h : x ∈ l
  · rw [if_pos h]
    constructor
    · exact Or.inl
    · rintro (hy | rfl)
      · exact hy
      · exact h
  · rw [if_neg h]
    simp

/-- `Set.add` keeps the underlying list duplicate-free. -/
theorem insertUnique_nodup {l : List Str} {x : Str} (h : l.Nodup) :
    (insertUnique l x).Nodup := by
  rw [insertUnique]
  by_cases hx : x ∈ l
  · rwa [if_pos hx]
  · rw [if_neg hx]
    refine h.append (List.nodup_singleton x) ?_
    intro a ha hmem
    rw [List.mem_singleton] at hmem
    exact hx (hmem ▸ ha)

/-- Membership after adding many elements. -/
theorem mem_insertManyUnique (xs : List Str) :
    ∀ (l : List Str) (y : Str),
      y ∈ insertManyUnique l xs ↔ y ∈ l ∨ y ∈ xs := by
  induction xs with
  | nil => intro l y; simp [insertManyUnique]
  | cons x rest ih =>
      intro l y
      rw [insertManyUnique, List.foldl_cons]
      have h2 := ih (insertUnique l x) y
      rw [insertManyUnique] at h2
      rw [h2, mem_insertUnique]
      simp only [List.mem_cons]
      tauto

/-- Adding many elements keeps the list duplicate-free. -/
theorem insertManyUnique_nodup {xs : List Str} :
    ∀ {l : List Str}, l.Nodup → (insertManyUnique l xs).Nodup := by
  induction xs with
  | nil => intro l h; exact h
  | cons x rest ih =>
      intro l h
      rw [insertManyUnique, List.foldl_cons]
      exact ih (insertUnique_nodup h)

/-- One regulation's pass over the three keys keeps the accumulated test
list duplicate-free. -/
theorem addTestsForReg_nodup {acc : List Str} {reg : Str} (h : acc.Nodup) :
    (addTestsForReg acc reg).Nodup := by
  simp only [addTestsForReg, regulationKeys, List.foldl]
  split_ifs <;> (repeat apply insertManyUnique_nodup) <;> exact h

/-- Every test name produced by one regulation's pass was already
accumulated or is one of the known test names. -/
theorem mem_addTestsForReg {acc : List Str} {reg t : Str}
    (h : t ∈ addTestsForReg acc reg) : t ∈ acc ∨ t ∈ allKnownTests := by
  simp only [addTestsForReg, regulationKeys, List.foldl] at h
  simp only [allKnownTests, List.mem_append]
  split_ifs at h
  all_goals try simp only [mem_insertManyUnique] at h
  all_goals tauto

/-- The collected `requiredTests` list is duplicate-free. -/
theorem collectTests_nodup (regs : List Str) : (collectTests regs).Nodup := by
  have aux : ∀ (rs : List Str) (acc : List Str), acc.Nodup →
      (rs.foldl addTestsForReg acc).Nodup := by
    intro rs
    induction rs with
    | nil => intro acc h; exact h
    | cons r rest ih =>
        intro acc h
        rw [List.foldl_cons]
        exact ih _ (addTestsForReg_nodup h)
  exact aux regs [] List.nodup_nil

/-- Every collected test name is one of the known test names. -/
theorem mem_collectTests {regs : List Str} {t : Str}
    (h : t ∈ collectTests regs) : t ∈ allKnownTests := by
  have aux : ∀ (rs : List Str) (acc : List Str),
      (∀ x ∈ acc, x ∈ allKnownTests) →
      ∀ x ∈ rs.foldl addTestsForReg acc, x ∈ allKnownTests := by
    intro rs
    induction rs with
    | nil => intro acc hacc x hx; exact hacc x hx
    | cons r rest ih =>
        intro acc hacc x hx
        rw [List.foldl_cons] at hx
        refine ih _ ?_ x hx
        intro y hy
        rcases mem_addTestsForReg hy with hy | hy
        · exact hacc y hy
        · exact hy
  exact aux regs [] (by simp) t h

/-- Distinct known test names map to distinct `test` labels in the cost
table. -/
theorem testingCostTable_test_inj :
    ∀ a ∈ allKnownTests, ∀ b ∈ allKnownTests, a ≠ b →
      Option.map TestingCost.test (testingCostTable a) ≠
        Option.map TestingCost.test (testingCostTable b) := by
  decide

/-- Looking up a duplicate-free list of known test names yields line
items with pairwise-distinct `test` labels. -/
theorem filterMap_table_nodup :
    ∀ l : List Str, l.Nodup → (∀ t ∈ l, t ∈ allKnownTests) →
      ((l.filterMap testingCostTable).map TestingCost.test).Nodup := by
  intro l
  induction l with
  | nil => intro _ _; simp
  | cons x xs ih =>
      intro hnd hsub
      rw [List.filterMap_cons]
      cases hx : testingCostTable x with
      | none =>
          exact ih hnd.of_cons (fun t ht => hsub t (List.mem_cons_of_mem _ ht))
      | some c =>
          rw [List.map_cons]
          refine List.Nodup.cons ?_
            (ih hnd.of_cons (fun t ht => hsub t (List.mem_cons_of_mem _ ht)))
          intro hmem
          rw [List.mem_map] at hmem
          obtain ⟨d, hd, hdt⟩ := hmem
          rw [List.mem_filterMap] at hd
          obtain ⟨y, hy, hyd⟩ := hd
          have hxy : x ≠ y := by
            intro heq
            exact hnd.not_mem (heq ▸ hy)
          refine testingCostTable_test_inj x (hsub x (List.mem_cons_self x xs))
            y (hsub y (List.mem_cons_of_mem _ hy)) hxy ?_
          rw [hx, hyd]
          simpa using hdt.symm

/-- A regulation containing none of the three keys adds nothing. -/
theorem addTestsForReg_id {acc : List Str} {reg : Str}
    (h : ∀ key ∈ regulationKeys, strIncludes (lowerStr reg) key = false) :
    addTestsForReg acc reg = acc := by
  have h1 := h (str "cpsia") (by simp [regulationKeys])
  have h2 := h (str "astm-f963") (by simp [regulationKeys])
  have h3 := h (str "fda-21-cfr") (by simp [regulationKeys])
  simp [addTestsForReg, regulationKeys, h1, h2, h3]

/-! ## Claim theorems: testing-cost estimator -/

/-- C6: `estimateTestingCost` is a function of the rule's
`requiredRegulations` alone (so re-running it on the same rule always
yields the same list); the matched test names in its output are
pairwise distinct; and a rule none of whose regulations contains any of
the known keys (case-insensitive substring match) yields the empty
list, not an error. -/
theorem testing_cost_pure_dedup :
    (∀ r r' : CategoryComplianceRule,
      r.requiredRegulations = r'.requiredRegulations →
      estimateTestingCost r = estimateTestingCost r') ∧
    (∀ r : CategoryComplianceRule,
      ((estimateTestingCost r).map TestingCost.test).Nodup) ∧
    (∀ r : CategoryComplianceRule,
      (∀ reg ∈ r.requiredRegulations, ∀ key ∈ regulationKeys,
        strIncludes (lowerStr reg) key = false) →
      estimateTestingCost r = []) := by
  refine ⟨?_, ?_, ?_⟩
  · intro r r' h
    rw [estimateTestingCost, estimateTestingCost, h]
  · intro r
    exact filterMap_table_nodup _ (collectTests_nodup _)
      (fun t ht => mem_collectTests ht)
  · intro r h
    have hz : collectTests r.requiredRegulations = [] := by
      rw [collectTests]
      have aux : ∀ rs : List Str,
          (∀ reg ∈ rs, ∀ key ∈ regulationKeys,
            strIncludes (lowerStr reg) key = false) →
          rs.foldl addTestsForReg [] = [] := by
        intro rs
        induction rs with
        | nil => intro _; rfl
        | cons x xs ih =>
            intro hx
            rw [List.foldl_cons, addTestsForReg_id (hx x (List.mem_cons_self x xs))]
            exact ih (fun reg hreg => hx reg (List.mem_cons_of_mem _ hreg))
      exact aux _ h
    rw [estimateTestingCost, hz]
    rfl

/-- Witness for C6: two rules sharing regulations produce identical
estimates, and a rule whose only regulation contains no known key
produces the empty list. -/
theorem testing_cost_pure_dedup_witness :
    estimateTestingCost
      ⟨str "r1", str "A", [], [], [], [str "CPSIA section 101"], [], [], []⟩ =
      estimateTestingCost
        ⟨str "r2", str "B", [], [], [str "9503"], [str "CPSIA section 101"],
          [], [], []⟩ ∧
    estimateTestingCost
      ⟨str "r3", str "C", [], [], [], [str "UL 2056"], [], [], []⟩ = [] := by
  obtain ⟨ha, _, hc⟩ := testing_cost_pure_dedup
  exact ⟨ha _ _ rfl, hc _ (by decide)⟩

/-! ## Claim theorems: initial-order cost -/

/-- C7: whenever the unit cost parses, `estimateInitialOrderCost`
returns `minimumOrderCost = unitCost × 500` and `totalInitialCost =
minimumOrderCost + (sum of the high bounds)`; in particular landed cost
`$2.91` with testing-high total `970` gives `minimumOrderCost = 1455`
and `totalInitialCost = 2425`. -/
theorem initial_order_cost_arithmetic :
    (∀ (a : AnalysisForCost) (r : InitialOrderCost),
      estimateInitialOrderCost a = some r →
      r.moq = 500 ∧ r.minimumOrderCost = r.unitCost * r.moq ∧
        r.totalInitialCost = r.minimumOrderCost + r.testingCostTotal ∧
        r.testingCostTotal =
          ((a.testing_cost_estimate.getD []).map
            (fun item => (item.high : ℚ))).sum) ∧
    (∀ a : AnalysisForCost,
      a.landed_cost = str "$2.91" →
      ((a.testing_cost_estimate.getD []).map
        (fun item => (item.high : ℚ))).sum = 970 →
      ∃ r, estimateInitialOrderCost a = some r ∧
        r.unitCost = 291 / 100 ∧ r.minimumOrderCost = 1455 ∧
        r.totalInitialCost = 2425) := by
  constructor
  · intro a r h
    rw [estimateInitialOrderCost] at h
    cases hp : parseCurrency a.landed_cost with
    | none => rw [hp] at h; cases h
    | some u =>
        rw [hp] at h
        have h' := Option.some.inj h
        rw [← h']
        refine ⟨rfl, rfl, rfl, rfl⟩
  · intro a h1 h2
    have hp : parseCurrency a.landed_cost = some (291 / 100 : ℚ) := by
      rw [h1]
      have h0 : parseCurrency (str "$2.91") =
          some (((2 : ℕ) : ℚ) + ((91 : ℕ) : ℚ) / 10 ^ (2 : ℕ)) := rfl
      rw [h0]
      norm_num
    have hres : estimateInitialOrderCost a =
        some
          { testingCostTotal := 970
            unitCost := 291 / 100
            moq := 500
            minimumOrderCost := (291 / 100 : ℚ) * 500
            totalInitialCost := (291 / 100 : ℚ) * 500 + 970 } := by
      rw [estimateInitialOrderCost, hp, h2]
    refine ⟨_, hres, rfl, ?_, ?_⟩
    · show (291 / 100 : ℚ) * 500 = 1455
      norm_num
    · show (291 / 100 : ℚ) * 500 + 970 = 2425
      norm_num

/-- Witness for C7: a concrete analysis with landed cost `$2.91` and
three line items whose high bounds sum to 970. -/
theorem initial_order_cost_arithmetic_witness :
    ∃ r, estimateInitialOrderCost
        ⟨str "$2.91",
          some [⟨str "t1", 0, 250⟩, ⟨str "t2", 0, 320⟩, ⟨str "t3", 0, 400⟩]⟩ =
        some r ∧
      r.minimumOrderCost = 1455 ∧ r.totalInitialCost = 2425 := by
  obtain ⟨_, hb⟩ := initial_order_cost_arithmetic
  obtain ⟨r, hr, _, hm, ht⟩ := hb
    ⟨str "$2.91",
      some [⟨str "t1", 0, 250⟩, ⟨str "t2", 0, 320⟩, ⟨str "t3", 0, 400⟩]⟩
    rfl (by norm_num)
  exact ⟨r, hr, hm, ht⟩

/-! ## Lemmas: knowledge-store merge -/

/-- Merging the same record twice is the same as merging it once. -/
theorem mergeCategory_self {α : Type} (getId : α → Str) (l : List α) (r : α) :
    mergeCategory getId (mergeCategory getId l r) r = mergeCategory getId l r := by
  induction l with
  | nil => simp [mergeCategory]
  | cons c cs ih =>
      by_cases h : getId c = getId r
      · simp [mergeCategory, h]
      · simp [mergeCategory, h, ih]

/-- Identifiers after a merge: the new record's identifier or one
already present. -/
theorem mem_map_mergeCategory {α : Type} (getId : α → Str) (l : List α)
    (r : α) {x : Str} (h : x ∈ (mergeCategory getId l r).map getId) :
    x = getId r ∨ x ∈ l.map getId := by
  induction l with
  | nil => simpa [mergeCategory] using h
  | cons c cs ih =>
      by_cases hc : getId c = getId r
      · rw [mergeCategory, if_pos hc] at h
        rcases (List.mem_cons).1 h with h | h
        · exact Or.inl (by simpa using h)
        · exact Or.inr (List.mem_cons_of_mem _ h)
      · rw [mergeCategory, if_neg hc] at h
        rcases (List.mem_cons).1 h with h | h
        · exact Or.inr (by simp [h])
        · rcases ih h with h | h
          · exact Or.inl h
          · exact Or.inr (by simp [h])

/-- A merge never duplicates identifiers. -/
theorem mergeCategory_nodup {α : Type} (getId : α → Str) (l : List α)
    (r : α) (h : (l.map getId).Nodup) :
    ((mergeCategory getId l r).map getId).Nodup := by
  induction l with
  | nil => simp [mergeCategory]
  | cons c cs ih =>
      rw [List.map_cons] at h
      by_cases hc : getId c = getId r
      · rw [mergeCategory, if_pos hc, List.map_cons]
        refine List.Nodup.cons ?_ h.of_cons
        rw [← hc]
        exact h.not_mem
      · rw [mergeCategory, if_neg hc, List.map_cons]
        refine List.Nodup.cons ?_ (ih h.of_cons)
        intro hmem
        rcases mem_map_mergeCategory getId cs r hmem with heq | hmem2
        · exact hc heq
        · exact h.not_mem hmem2

/-! ## Claim theorems: knowledge-store merge -/

/-- C8: merging the same compliance/factory record pair into the
Knowledge Store twice leaves the parsed content identical after the
second merge; a record whose identifier already exists replaces the
entry at its existing index and only a new identifier is appended, so
identifier-uniqueness is preserved and no duplicate entries are ever
created. -/
theorem merge_idempotent :
    (∀ (ks : KnowledgeStore) (cj : CategoryComplianceRule)
      (fj : CategoryFactoryVettingHints),
      mergeIntoFiles (mergeIntoFiles ks cj fj) cj fj = mergeIntoFiles ks cj fj) ∧
    (∀ (ks : KnowledgeStore) (cj : CategoryComplianceRule)
      (fj : CategoryFactoryVettingHints),
      (ks.complianceCategories.map CategoryComplianceRule.id).Nodup →
      (ks.factoryCategories.map CategoryFactoryVettingHints.id).Nodup →
      ((mergeIntoFiles ks cj fj).complianceCategories.map
        CategoryComplianceRule.id).Nodup ∧
      ((mergeIntoFiles ks cj fj).factoryCategories.map
        CategoryFactoryVettingHints.id).Nodup) := by
  constructor
  · intro ks cj fj
    simp [mergeIntoFiles, mergeCategory_self]
  · intro ks cj fj h1 h2
    exact ⟨mergeCategory_nodup _ _ _ h1, mergeCategory_nodup _ _ _ h2⟩

/-- Witness for C8: re-merging the sample record pair (an update of an
existing identifier plus a fresh append) is a no-op the second time
and keeps identifiers unique. -/
theorem merge_idempotent_witness :
    mergeIntoFiles
        (mergeIntoFiles ⟨[babyTeetherRule], []⟩ babyTeetherRule
          ⟨str "baby_teether", str "Baby Teether", [], [], [], [], [], []⟩)
        babyTeetherRule
        ⟨str "baby_teether", str "Baby Teether", [], [], [], [], [], []⟩ =
      mergeIntoFiles ⟨[babyTeetherRule], []⟩ babyTeetherRule
        ⟨str "baby_teether", str "Baby Teether", [], [], [], [], [], []⟩ ∧
    ((mergeIntoFiles ⟨[babyTeetherRule], []⟩ babyTeetherRule
        ⟨str "baby_teether", str "Baby Teether", [], [], [], [], [], []⟩
      ).complianceCategories.map CategoryComplianceRule.id).Nodup := by
  obtain ⟨h1, h2⟩ := merge_idempotent
  exact ⟨h1 ⟨[babyTeetherRule], []⟩ babyTeetherRule
      ⟨str "baby_teether", str "Baby Teether", [], [], [], [], [], []⟩,
    (h2 ⟨[babyTeetherRule], []⟩ babyTeetherRule
      ⟨str "baby_teether", str "Baby Teether", [], [], [], [], [], []⟩
      (by decide) (by decide)).1⟩

end NexSupply
